import Mathlib

/-!
Shallow embedding of the HijriDate-rs crate (src/lib.rs) together with a model,
taken from the specification, of the umalqura conversion module that the crate
uses but whose source is not part of this tree.

The crate converts dates between the Hijri (Umm al-Qura) calendar and the
Gregorian calendar on a bounded window, validates inputs, and offers day
arithmetic, comparison and a token-substitution formatter.  Month lengths of
the Hijri calendar are table data, so the conversion layer is embedded as
functions over an abstract table satisfying the invariants the specification
states for it.
-/

set_option autoImplicit false
set_option maxRecDepth 400000

/-- Locate position `n` inside a list of segment lengths: the index of the
segment containing `n`, and the offset of `n` inside that segment.  Positions
past the end of the last segment give index `L.length`. -/
def splitIdx : List Nat → Nat → Nat × Nat
  | [], n => (0, n)
  | a :: L, n =>
      if n < a then (0, n)
      else ((splitIdx L (n - a)).1 + 1, (splitIdx L (n - a)).2)

/-- Sum of the first `i` segment lengths. -/
def sumTake (L : List Nat) (i : Nat) : Nat := (L.take i).sum

/-- Inverse of `splitIdx`: the absolute position of offset `r` in segment `i`. -/
def joinIdx (L : List Nat) (i r : Nat) : Nat := sumTake L i + r

theorem sumTake_zero (L : List Nat) : sumTake L 0 = 0 := rfl

theorem sumTake_succ_cons (a : Nat) (L : List Nat) (i : Nat) :
    sumTake (a :: L) (i + 1) = a + sumTake L i := by
  simp [sumTake, List.take_succ_cons]

theorem splitIdx_fst_lt : ∀ (L : List Nat) (n : Nat), n < L.sum →
    (splitIdx L n).1 < L.length := by
  intro L
  induction L with
  | nil => intro n h; simp at h
  | cons a L ih =>
      intro n h
      by_cases hn : n < a
      · simp [splitIdx, hn]
      · have h2 : n - a < L.sum := by
          simp [List.sum_cons] at h; omega
        have := ih (n - a) h2
        simp [splitIdx, hn]
        omega

theorem splitIdx_snd_lt : ∀ (L : List Nat) (n : Nat), n < L.sum →
    (splitIdx L n).2 < L.getD (splitIdx L n).1 0 := by
  intro L
  induction L with
  | nil => intro n h; simp at h
  | cons a L ih =>
      intro n h
      by_cases hn : n < a
      · simp [splitIdx, hn]
      · have h2 : n - a < L.sum := by
          simp [List.sum_cons] at h; omega
        have := ih (n - a) h2
        simpa [splitIdx, hn] using this

theorem joinIdx_splitIdx : ∀ (L : List Nat) (n : Nat), n < L.sum →
    joinIdx L (splitIdx L n).1 (splitIdx L n).2 = n := by
  intro L
  induction L with
  | nil => intro n h; simp at h
  | cons a L ih =>
      intro n h
      by_cases hn : n < a
      · simp [splitIdx, hn, joinIdx, sumTake]
      · have h2 : n - a < L.sum := by
          simp [List.sum_cons] at h; omega
        have := ih (n - a) h2
        simp [splitIdx, hn, joinIdx, sumTake_succ_cons] at this ⊢
        omega

theorem splitIdx_joinIdx : ∀ (L : List Nat) (i r : Nat),
    i < L.length → r < L.getD i 0 → splitIdx L (joinIdx L i r) = (i, r) := by
  intro L
  induction L with
  | nil => intro i r hi _; simp at hi
  | cons a L ih =>
      intro i r hi hr
      cases i with
      | zero =>
          have : r < a := by simpa using hr
          simp [joinIdx, sumTake, splitIdx, this]
      | succ i =>
          have hi' : i < L.length := by simpa using hi
          have hr' : r < L.getD i 0 := by simpa using hr
          have hrec := ih i r hi' hr'
          have hj : joinIdx (a :: L) (i + 1) r = a + joinIdx L i r := by
            simp [joinIdx, sumTake_succ_cons]; omega
          have hnlt : ¬ (a + joinIdx L i r < a) := by omega
          simp [hj, splitIdx, hnlt, hrec]

theorem joinIdx_lt_sum : ∀ (L : List Nat) (i r : Nat),
    i < L.length → r < L.getD i 0 → joinIdx L i r < L.sum := by
  intro L
  induction L with
  | nil => intro i r hi _; simp at hi
  | cons a L ih =>
      intro i r hi hr
      cases i with
      | zero =>
          have : r < a := by simpa using hr
          simp [joinIdx, sumTake, List.sum_cons]
          omega
      | succ i =>
          have hi' : i < L.length := by simpa using hi
          have hr' : r < L.getD i 0 := by simpa using hr
          have hrec := ih i r hi' hr'
          simp [joinIdx, sumTake_succ_cons, List.sum_cons] at hrec ⊢
          omega

theorem sumTake_le_sum (L : List Nat) (i : Nat) : sumTake L i ≤ L.sum := by
  have h : L.sum = (L.take i).sum + (L.drop i).sum := by
    rw [← List.sum_append, List.take_append_drop]
  rw [sumTake, h]
  omega

theorem sumTake_mono (L : List Nat) {i j : Nat} (h : i ≤ j) :
    sumTake L i ≤ sumTake L j := by
  induction L generalizing i j with
  | nil => simp [sumTake]
  | cons a L ih =>
      cases i with
      | zero => simp [sumTake_zero]
      | succ i =>
          cases j with
          | zero => omega
          | succ j =>
              have := ih (i := i) (j := j) (by omega)
              simp [sumTake_succ_cons]
              omega

theorem sumTake_succ (L : List Nat) (i : Nat) (hi : i < L.length) :
    sumTake L (i + 1) = sumTake L i + L.getD i 0 := by
  induction L generalizing i with
  | nil => simp at hi
  | cons a L ih =>
      cases i with
      | zero => simp [sumTake_succ_cons, sumTake_zero, sumTake]
      | succ i =>
          have hi' : i < L.length := by simpa using hi
          have := ih i hi'
          simp [sumTake_succ_cons, this]
          omega

/-! ### Proleptic Gregorian decomposition on the shared day axis

The spec (section 4.2, step 3) maps the shared epoch-day axis to Gregorian
dates by pure proleptic-Gregorian arithmetic.  Day 0 of the axis here is
1937-01-01; the axis covers the years 1937..2077, which encloses the crate's
validated Gregorian window [1938, 2076]. -/

/-- Gregorian leap-year test. -/
def isLeapG (y : Nat) : Bool :=
  (y % 4 == 0 && y % 100 != 0) || (y % 400 == 0)

/-- Length in days of Gregorian year `y`. -/
def yearLen (y : Nat) : Nat := if isLeapG y then 366 else 365

/-- The twelve Gregorian month lengths of year `y`. -/
def monthLens (y : Nat) : List Nat :=
  [31, if isLeapG y then 29 else 28, 31, 30, 31, 30, 31, 31, 30, 31, 30, 31]

/-- Number of days of Gregorian month `m` (1-based) in year `y`. -/
def gMonthLen (y m : Nat) : Nat := (monthLens y).getD (m - 1) 0

/-- Lengths of the Gregorian years 1937..2077 covered by the day axis. -/
def gYearLens : List Nat := (List.range 141).map (fun i => yearLen (1937 + i))

/-- Epoch-day number (days since 1937-01-01) of a Gregorian date. -/
def dayOfGreg (y m d : Nat) : Nat :=
  joinIdx gYearLens (y - 1937) (joinIdx (monthLens y) (m - 1) (d - 1))

/-- Gregorian `(year, month, day)` of an epoch-day number. -/
def gregOfDay (n : Nat) : Nat × Nat × Nat :=
  (1937 + (splitIdx gYearLens n).1,
   (splitIdx (monthLens (1937 + (splitIdx gYearLens n).1)) (splitIdx gYearLens n).2).1 + 1,
   (splitIdx (monthLens (1937 + (splitIdx gYearLens n).1)) (splitIdx gYearLens n).2).2 + 1)

theorem monthLens_sum (y : Nat) : (monthLens y).sum = yearLen y := by
  by_cases h : isLeapG y <;> simp [monthLens, yearLen, h]

theorem monthLens_length (y : Nat) : (monthLens y).length = 12 := rfl

theorem gYearLens_length : gYearLens.length = 141 := by
  simp [gYearLens]

theorem gYearLens_getD {i : Nat} (h : i < 141) :
    gYearLens.getD i 0 = yearLen (1937 + i) := by
  rw [gYearLens, List.getD_eq_getElem?_getD, List.getElem?_map, List.getElem?_range h]
  rfl

theorem gMonthLen_le_31 (y m : Nat) : gMonthLen y m ≤ 31 := by
  rw [gMonthLen]
  rcases hm : m - 1 with _ | _ | _ | _ | _ | _ | _ | _ | _ | _ | _ | _ | k <;>
    by_cases h : isLeapG y <;> simp [monthLens, h, List.getD]

/-- Decomposing a day number on the axis and recombining gives it back. -/
theorem dayOfGreg_gregOfDay {n : Nat} (h : n < gYearLens.sum) :
    dayOfGreg (gregOfDay n).1 (gregOfDay n).2.1 (gregOfDay n).2.2 = n := by
  have hy := splitIdx_fst_lt gYearLens n h
  have hylen : (splitIdx gYearLens n).1 < 141 := by
    simpa [gYearLens_length] using hy
  have hr := splitIdx_snd_lt gYearLens n h
  rw [gYearLens_getD hylen] at hr
  have hrsum : (splitIdx gYearLens n).2 < (monthLens (1937 + (splitIdx gYearLens n).1)).sum := by
    rw [monthLens_sum]; exact hr
  have hmon := joinIdx_splitIdx _ _ hrsum
  have hyear := joinIdx_splitIdx gYearLens n h
  simp only [gregOfDay, dayOfGreg, Nat.add_sub_cancel_left, Nat.add_sub_cancel]
  rw [hmon, hyear]

theorem gregOfDay_fst_bounds {n : Nat} (h : n < gYearLens.sum) :
    1937 ≤ (gregOfDay n).1 ∧ (gregOfDay n).1 ≤ 2077 := by
  have hy := splitIdx_fst_lt gYearLens n h
  have : (splitIdx gYearLens n).1 < 141 := by simpa [gYearLens_length] using hy
  constructor
  · simp [gregOfDay]
  · simp only [gregOfDay]; omega

theorem gregOfDay_month_bounds {n : Nat} (h : n < gYearLens.sum) :
    1 ≤ (gregOfDay n).2.1 ∧ (gregOfDay n).2.1 ≤ 12 ∧
    1 ≤ (gregOfDay n).2.2 ∧ (gregOfDay n).2.2 ≤ gMonthLen (gregOfDay n).1 (gregOfDay n).2.1 := by
  have hy := splitIdx_fst_lt gYearLens n h
  have hylen : (splitIdx gYearLens n).1 < 141 := by simpa [gYearLens_length] using hy
  have hr := splitIdx_snd_lt gYearLens n h
  rw [gYearLens_getD hylen] at hr
  have hrsum : (splitIdx gYearLens n).2 < (monthLens (1937 + (splitIdx gYearLens n).1)).sum := by
    rw [monthLens_sum]; exact hr
  have hm := splitIdx_fst_lt _ _ hrsum
  have hd := splitIdx_snd_lt _ _ hrsum
  rw [monthLens_length] at hm
  refine ⟨by simp [gregOfDay], ?_, by simp [gregOfDay], ?_⟩
  · simp only [gregOfDay]; omega
  · simp only [gregOfDay, gMonthLen, Nat.add_sub_cancel]
    exact hd

/-- Combining a valid Gregorian date to a day number and decomposing gives it
back. -/
theorem gregOfDay_dayOfGreg {y m d : Nat} (hy1 : 1937 ≤ y) (hy2 : y ≤ 2077)
    (hm1 : 1 ≤ m) (hm2 : m ≤ 12) (hd1 : 1 ≤ d) (hd2 : d ≤ gMonthLen y m) :
    gregOfDay (dayOfGreg y m d) = (y, m, d) := by
  have hmlt : m - 1 < (monthLens y).length := by rw [monthLens_length]; omega
  have hdlt : d - 1 < (monthLens y).getD (m - 1) 0 := by
    rw [gMonthLen] at hd2; omega
  have hylt : y - 1937 < gYearLens.length := by rw [gYearLens_length]; omega
  have hinner : joinIdx (monthLens y) (m - 1) (d - 1) < gYearLens.getD (y - 1937) 0 := by
    rw [gYearLens_getD (by omega)]
    have := joinIdx_lt_sum (monthLens y) (m - 1) (d - 1) hmlt hdlt
    rw [monthLens_sum] at this
    have hyy : 1937 + (y - 1937) = y := by omega
    rw [hyy]
    exact this
  have houter := splitIdx_joinIdx gYearLens (y - 1937) _ hylt hinner
  have hinner2 := splitIdx_joinIdx (monthLens y) (m - 1) (d - 1) hmlt hdlt
  have hyy : 1937 + (y - 1937) = y := by omega
  have o1 : (splitIdx gYearLens (dayOfGreg y m d)).1 = y - 1937 := by
    rw [dayOfGreg, houter]
  have o2 : (splitIdx gYearLens (dayOfGreg y m d)).2 =
      joinIdx (monthLens y) (m - 1) (d - 1) := by
    rw [dayOfGreg, houter]
  have i1 : (splitIdx (monthLens y) (joinIdx (monthLens y) (m - 1) (d - 1))).1 = m - 1 := by
    rw [hinner2]
  have i2 : (splitIdx (monthLens y) (joinIdx (monthLens y) (m - 1) (d - 1))).2 = d - 1 := by
    rw [hinner2]
  rw [gregOfDay, o1, o2, hyy, i1, i2]
  have hm' : m - 1 + 1 = m := by omega
  have hd' : d - 1 + 1 = d := by omega
  rw [hm', hd']

/-! ### The Umm al-Qura epoch table and converters

The crate's `umalqura` module (the epoch table `umalqura_array` and the two
conversion routines `hijri_to_gregorian` / `gegorean_to_hijri`) is used by
src/lib.rs but its source file is not part of this tree, so it is modelled
from the specification, sections 3 and 4.2. -/

/-- Modelled from the spec: the Epoch Table of the missing `umalqura_array`
module.  `hlens` lists the length of every Hijri month of 1356-01 .. 1500-12
in order; `shift` is the fixed offset between the Hijri epoch (1356-01-01) and
day 0 of the Gregorian axis (1937-01-01), the "fixed linear relationship
between the two calendars' epochs established at table-construction time". -/
structure UQTable where
  hlens : List Nat
  shift : Nat

/-- Modelled from the spec: the invariants stated for the Epoch Table.  The
table is total and dense over 1356-01..1500-12 (1740 months); every month
length is 29 or 30; the table's image lies on the Gregorian axis; and the
validated Gregorian window [1938-01-01, 2076-12-31] is covered by the table
(spec section 7: `DateOutOfTableBounds` is unreachable once range validation
has passed). -/
def UQTable.Valid (T : UQTable) : Prop :=
  T.hlens.length = 1740 ∧
  (∀ x ∈ T.hlens, x = 29 ∨ x = 30) ∧
  T.shift + T.hlens.sum ≤ gYearLens.sum ∧
  T.shift ≤ dayOfGreg 1938 1 1 ∧
  dayOfGreg 2076 12 31 < T.shift + T.hlens.sum

instance (T : UQTable) : Decidable T.Valid := by
  unfold UQTable.Valid
  infer_instance

/-- Position of Hijri month `(y, m)` in the dense table (0 for 1356-01). -/
def hIdx (y m : Nat) : Nat := (y - 1356) * 12 + (m - 1)

/-- Modelled from the spec: `hijri_to_gregorian` of the missing `umalqura`
module.  Epoch-day number `cumulativeOffset(year, month) + (day - 1)`, then
pure proleptic-Gregorian decomposition of the shifted day number. -/
def hijri_to_gregorian (T : UQTable) (year month day : Nat) : Nat × Nat × Nat :=
  gregOfDay (T.shift + joinIdx T.hlens (hIdx year month) (day - 1))

/-- Modelled from the spec: `gegorean_to_hijri` of the missing `umalqura`
module.  Converts the Gregorian date to the shared day axis, fails if the day
number falls outside the table, and otherwise locates the unique Hijri month
whose interval contains it, returning `(year, month, day, month_length)`. -/
def gegorean_to_hijri (T : UQTable) (year_gr month_gr day_gr : Nat) :
    Except String (Nat × Nat × Nat × Nat) :=
  let n := dayOfGreg year_gr month_gr day_gr
  if n < T.shift then .error "date out of table bounds"
  else if T.hlens.sum ≤ n - T.shift then .error "date out of table bounds"
  else
    .ok (1356 + (splitIdx T.hlens (n - T.shift)).1 / 12,
         (splitIdx T.hlens (n - T.shift)).1 % 12 + 1,
         (splitIdx T.hlens (n - T.shift)).2 + 1,
         T.hlens.getD (splitIdx T.hlens (n - T.shift)).1 0)

/-! ### The public structure and entry points of src/lib.rs

`HijriDate` keeps the numeric fields of the Rust struct.  The four name
strings of the Rust struct (`day_name`, `month_name`, `day_name_en`,
`month_name_en`) are produced by dictionary lookup and by the external
`chrono`/`arabic_reshaper` crates from `month` and `date_gr` alone, so they
are left out of the embedded struct and passed explicitly to `format`; the
lookup in `MONTH_DICT`, which panics for a month outside 1..12, is kept as a
guard.  Rust's derived `PartialEq` compares every field, which the derived
`DecidableEq` mirrors.  `date_gr` stands for the chrono `Date<Utc>` value as
its day number on the axis. -/
structure HijriDate where
  day : Nat
  month : Nat
  month_len : Nat
  year : Nat
  day_gr : Nat
  month_gr : Nat
  year_gr : Nat
  date_gr : Nat
deriving DecidableEq

deriving instance DecidableEq for Except

/-- `valid_hijri_date` of src/lib.rs: the four panics become errors. -/
def valid_hijri_date (year month day : Nat) : Except String Unit :=
  if month > 12 then .error "enter a valid month"
  else if day > 30 then .error "enter a valid day"
  else if year < 1356 then .error "minumum handled hijri year is 1356"
  else if year > 1500 then .error "maximum handled hijri year is 1500"
  else .ok ()

/-- `valid_greorian_date` of src/lib.rs: the four panics become errors. -/
def valid_greorian_date (year_gr month_gr day_gr : Nat) : Except String Unit :=
  if month_gr > 12 then .error "enter a valid month"
  else if day_gr > 31 then .error "enter a valid day"
  else if year_gr < 1938 then .error "minumum handled gregorian year is 1938"
  else if year_gr > 2076 then .error "maximum handled gregorian year is 2076"
  else .ok ()

/-- The `MONTH_DICT[&month]` lookup of src/lib.rs succeeds exactly for keys
1..12. -/
def monthNameOk (m : Nat) : Bool := decide (1 ≤ m ∧ m ≤ 12)

/-- `NaiveDate::parse_from_str` on the `"y-m-d"` string built in src/lib.rs
succeeds exactly for a representable Gregorian date (leap-year aware). -/
def parseOk (y m d : Nat) : Bool := decide (1 ≤ m ∧ m ≤ 12 ∧ 1 ≤ d ∧ d ≤ gMonthLen y m)

/-- `HijriDate::from_hijri` of src/lib.rs: validate, look up the month name,
convert, parse the Gregorian date, and fetch the month length through
`gegorean_to_hijri`. -/
def from_hijri (T : UQTable) (year month day : Nat) : Except String HijriDate :=
  match valid_hijri_date year month day with
  | .error e => .error e
  | .ok _ =>
    if monthNameOk month then
      let g := hijri_to_gregorian T year month day
      if parseOk g.1 g.2.1 g.2.2 then
        match gegorean_to_hijri T g.1 g.2.1 g.2.2 with
        | .error e => .error e
        | .ok r =>
            .ok ⟨day, month, r.2.2.2, year, g.2.2, g.2.1, g.1,
                 dayOfGreg g.1 g.2.1 g.2.2⟩
      else .error "Wrong gegorean date foramt"
    else .error "month name key not found"

/-- `HijriDate::from_gr` of src/lib.rs: validate, parse the Gregorian date,
convert, and look up the Hijri month name. -/
def from_gr (T : UQTable) (year_gr month_gr day_gr : Nat) : Except String HijriDate :=
  match valid_greorian_date year_gr month_gr day_gr with
  | .error e => .error e
  | .ok _ =>
    if parseOk year_gr month_gr day_gr then
      match gegorean_to_hijri T year_gr month_gr day_gr with
      | .error e => .error e
      | .ok r =>
          if monthNameOk r.2.1 then
            .ok ⟨r.2.2.1, r.2.1, r.2.2.2, r.1, day_gr, month_gr, year_gr,
                 dayOfGreg year_gr month_gr day_gr⟩
          else .error "month name key not found"
    else .error "Wrong gegorean date foramt"

/-- `HijriDate::chrno_to_hijri` of src/lib.rs: decompose a chrono date into
Gregorian fields and feed them to `from_gr`. -/
def chrno_to_hijri (T : UQTable) (n : Nat) : Except String HijriDate :=
  from_gr T (gregOfDay n).1 (gregOfDay n).2.1 (gregOfDay n).2.2

/-- `impl Add<Duration> for HijriDate` of src/lib.rs: shift the canonical
chrono date by `n` days and rebuild.  A shift below the axis start cannot be
represented on the `Nat` axis and is reported as an error (the rebuilt date
would be rejected by `from_gr`'s year check in any case). -/
def hdAdd (T : UQTable) (hd : HijriDate) (n : Int) : Except String HijriDate :=
  if (hd.date_gr : Int) + n < 0 then .error "date before gregorian axis"
  else chrno_to_hijri T ((hd.date_gr : Int) + n).toNat

/-- `impl Sub<Duration> for HijriDate` of src/lib.rs. -/
def hdSub (T : UQTable) (hd : HijriDate) (n : Int) : Except String HijriDate :=
  hdAdd T hd (-n)

/-- `impl Sub<HijriDate> for HijriDate` of src/lib.rs: the signed difference
of the canonical chrono dates, in days. -/
def hdDiff (a b : HijriDate) : Int := (a.date_gr : Int) - (b.date_gr : Int)

/-- `impl PartialOrd for HijriDate` of src/lib.rs: comparison of the canonical
chrono dates. -/
def hdCmp (a b : HijriDate) : Ordering := compare a.date_gr b.date_gr

/-! ### The formatter of src/lib.rs -/

/-- Whether the first list is an initial run of the second. -/
def leadsWith : List Char → List Char → Bool
  | [], _ => true
  | _ :: _, [] => false
  | p :: ps, c :: cs => p == c && leadsWith ps cs

/-- Replace every non-overlapping occurrence of `p` by `r`, scanning left to
right as Rust's `str::replace` does.  Each step consumes at least one
character, so fuel equal to the input length suffices. -/
def replChars : Nat → List Char → List Char → List Char → List Char
  | 0, _, _, l => l
  | _ + 1, _, _, [] => []
  | fuel + 1, p, r, c :: cs =>
      if leadsWith p (c :: cs) && p.length != 0 then
        r ++ replChars fuel p r (cs.drop (p.length - 1))
      else
        c :: replChars fuel p r cs

/-- Rust's `str::replace`. -/
def replaceAll (s pat rep : String) : String :=
  ⟨replChars s.toList.length pat.toList rep.toList s.toList⟩

/-- `HijriDate::format` of src/lib.rs: the chain of eleven `replace` calls in
source order.  The four name strings of the Rust struct are passed in
explicitly (see the note on `HijriDate`). -/
def HijriDate.format (hd : HijriDate)
    (day_name month_name day_name_en month_name_en : String) (f : String) : String :=
  replaceAll (replaceAll (replaceAll (replaceAll (replaceAll (replaceAll
    (replaceAll (replaceAll (replaceAll (replaceAll (replaceAll f
      "%Y" (toString hd.year))
      "%m" (toString hd.month))
      "%d" (toString hd.day))
      "%D" day_name)
      "%M" month_name)
      "l" (toString hd.month_len))
      "%gY" (toString hd.year_gr))
      "%gm" (toString hd.month_gr))
      "%gd" (toString hd.day_gr))
      "%gD" day_name_en)
      "%gM" month_name_en

/-! ### A concrete table instance

`tableC` is one concrete instance of the spec's table invariants, used to
evaluate the development on closed inputs.  (The crate's real table data is
not part of this tree; `tableC` is spec-compliant sample data, not the
published Umm al-Qura data.) -/

/-- A concrete, spec-compliant month-length list: months alternate in blocks,
with the table's last month given 30 days. -/
def hlensC : List Nat :=
  (List.range 1740).map (fun i => if i = 1739 then 30 else if i % 12 < 6 then 30 else 29)

/-- A concrete, spec-compliant table. -/
def tableC : UQTable := ⟨hlensC, 72⟩

/-! ### Canonical form of constructor results -/

/-- The `HijriDate` determined by day number `n` of the axis alone: both
calendar views derived from the one canonical value. -/
def canonicalHD (T : UQTable) (n : Nat) : HijriDate :=
  ⟨(splitIdx T.hlens (n - T.shift)).2 + 1,
   (splitIdx T.hlens (n - T.shift)).1 % 12 + 1,
   T.hlens.getD (splitIdx T.hlens (n - T.shift)).1 0,
   1356 + (splitIdx T.hlens (n - T.shift)).1 / 12,
   (gregOfDay n).2.2, (gregOfDay n).2.1, (gregOfDay n).1, n⟩

theorem mem_getD {L : List Nat} {i : Nat} (h : i < L.length) : L.getD i 0 ∈ L := by
  rw [List.getD_eq_getElem?_getD, List.getElem?_eq_getElem h]
  exact List.getElem_mem h

theorem valid_hijri_ok {y m d : Nat} (hm : m ≤ 12) (hd : d ≤ 30)
    (hy1 : 1356 ≤ y) (hy2 : y ≤ 1500) : valid_hijri_date y m d = .ok () := by
  unfold valid_hijri_date
  rw [if_neg (by omega), if_neg (by omega), if_neg (by omega), if_neg (by omega)]

theorem valid_greorian_ok {y m d : Nat} (hm : m ≤ 12) (hd : d ≤ 31)
    (hy1 : 1938 ≤ y) (hy2 : y ≤ 2076) : valid_greorian_date y m d = .ok () := by
  unfold valid_greorian_date
  rw [if_neg (by omega), if_neg (by omega), if_neg (by omega), if_neg (by omega)]

/-- Every Gregorian date of a year at least 1938 sits at or after day 365 of
the axis (day 365 is 1938-01-01). -/
theorem dayOfGreg_ge_365 {gy gm gd : Nat} (hy : 1938 ≤ gy) :
    365 ≤ dayOfGreg gy gm gd := by
  have h1 : (1 : Nat) ≤ gy - 1937 := by omega
  have hmono := sumTake_mono gYearLens h1
  have h365 : sumTake gYearLens 1 = 365 := by decide
  rw [dayOfGreg, joinIdx]
  omega

/-- Every valid Gregorian date of a year at most 2076 sits at or before day
51134 of the axis (day 51134 is 2076-12-31). -/
theorem dayOfGreg_le_cap {gy gm gd : Nat} (hy1 : 1937 ≤ gy) (hy2 : gy ≤ 2076)
    (hm1 : 1 ≤ gm) (hm2 : gm ≤ 12) (hd1 : 1 ≤ gd) (hd2 : gd ≤ gMonthLen gy gm) :
    dayOfGreg gy gm gd ≤ 51134 := by
  have hmlt : gm - 1 < (monthLens gy).length := by rw [monthLens_length]; omega
  have hdlt : gd - 1 < (monthLens gy).getD (gm - 1) 0 := by
    rw [gMonthLen] at hd2; omega
  have hinner := joinIdx_lt_sum _ _ _ hmlt hdlt
  rw [monthLens_sum] at hinner
  have hgetD : gYearLens.getD (gy - 1937) 0 = yearLen (1937 + (gy - 1937)) :=
    gYearLens_getD (by omega)
  have hyy : 1937 + (gy - 1937) = gy := by omega
  rw [hyy] at hgetD
  have hsucc := sumTake_succ gYearLens (gy - 1937) (by rw [gYearLens_length]; omega)
  have hmono := sumTake_mono gYearLens (show gy - 1937 + 1 ≤ 140 by omega)
  have hcap : sumTake gYearLens 140 = 51135 := by decide
  rw [dayOfGreg, joinIdx]
  omega

theorem dayOfGreg_1938 : dayOfGreg 1938 1 1 = 365 := by decide

theorem dayOfGreg_2076 : dayOfGreg 2076 12 31 = 51134 := by decide

/-- `from_gr` on a valid Gregorian date of the window produces exactly the
canonical value of that date's day number. -/
theorem from_gr_canonical (T : UQTable) (hT : T.Valid) {gy gm gd : Nat}
    (hy1 : 1938 ≤ gy) (hy2 : gy ≤ 2076) (hm1 : 1 ≤ gm) (hm2 : gm ≤ 12)
    (hd1 : 1 ≤ gd) (hd2 : gd ≤ gMonthLen gy gm) :
    from_gr T gy gm gd = .ok (canonicalHD T (dayOfGreg gy gm gd)) := by
  obtain ⟨hlen, hmem, hsum, hlo, hhi⟩ := hT
  rw [dayOfGreg_1938] at hlo
  rw [dayOfGreg_2076] at hhi
  have hvalid : valid_greorian_date gy gm gd = .ok () :=
    valid_greorian_ok hm2 (le_trans hd2 (gMonthLen_le_31 gy gm)) hy1 hy2
  have hparse : parseOk gy gm gd = true := by
    simp only [parseOk, decide_eq_true_eq]
    exact ⟨hm1, hm2, hd1, hd2⟩
  have hge : 365 ≤ dayOfGreg gy gm gd := dayOfGreg_ge_365 hy1
  have hcap : dayOfGreg gy gm gd ≤ 51134 :=
    dayOfGreg_le_cap (by omega) hy2 hm1 hm2 hd1 hd2
  have hnotlo : ¬ (dayOfGreg gy gm gd < T.shift) := by omega
  have hnothi : ¬ (T.hlens.sum ≤ dayOfGreg gy gm gd - T.shift) := by omega
  have hconv : gegorean_to_hijri T gy gm gd =
      .ok (1356 + (splitIdx T.hlens (dayOfGreg gy gm gd - T.shift)).1 / 12,
           (splitIdx T.hlens (dayOfGreg gy gm gd - T.shift)).1 % 12 + 1,
           (splitIdx T.hlens (dayOfGreg gy gm gd - T.shift)).2 + 1,
           T.hlens.getD (splitIdx T.hlens (dayOfGreg gy gm gd - T.shift)).1 0) := by
    rw [gegorean_to_hijri]
    simp only [if_neg hnotlo, if_neg hnothi]
  have hname : monthNameOk ((splitIdx T.hlens (dayOfGreg gy gm gd - T.shift)).1 % 12 + 1)
      = true := by
    simp only [monthNameOk, decide_eq_true_eq]
    omega
  have hg : gregOfDay (dayOfGreg gy gm gd) = (gy, gm, gd) :=
    gregOfDay_dayOfGreg (by omega) (by omega) hm1 hm2 hd1 hd2
  rw [from_gr, hvalid]
  simp only [hparse, if_true, hconv, hname, canonicalHD, hg]

theorem hIdx_lt {y m : Nat} (hy1 : 1356 ≤ y) (hy2 : y ≤ 1500)
    (hm1 : 1 ≤ m) (hm2 : m ≤ 12) : hIdx y m < 1740 := by
  rw [hIdx]; omega

/-- `from_hijri` on a properly valid Hijri date (day within the actual month
length) produces exactly the canonical value of its day number. -/
theorem from_hijri_canonical (T : UQTable) (hT : T.Valid) {y m d : Nat}
    (hy1 : 1356 ≤ y) (hy2 : y ≤ 1500) (hm1 : 1 ≤ m) (hm2 : m ≤ 12)
    (hd1 : 1 ≤ d) (hd2 : d ≤ T.hlens.getD (hIdx y m) 0) :
    from_hijri T y m d =
      .ok (canonicalHD T (T.shift + joinIdx T.hlens (hIdx y m) (d - 1))) := by
  obtain ⟨hlen, hmem, hsum, hlo, hhi⟩ := hT
  have hidx : hIdx y m < T.hlens.length := by
    rw [hlen]; exact hIdx_lt hy1 hy2 hm1 hm2
  have hd30 : T.hlens.getD (hIdx y m) 0 = 29 ∨ T.hlens.getD (hIdx y m) 0 = 30 :=
    hmem _ (mem_getD hidx)
  have hvalid : valid_hijri_date y m d = .ok () :=
    valid_hijri_ok hm2 (by omega) hy1 hy2
  have hname : monthNameOk m = true := by
    simp only [monthNameOk, decide_eq_true_eq]; omega
  set n := T.shift + joinIdx T.hlens (hIdx y m) (d - 1) with hn
  have hdlt : d - 1 < T.hlens.getD (hIdx y m) 0 := by omega
  have hjlt : joinIdx T.hlens (hIdx y m) (d - 1) < T.hlens.sum :=
    joinIdx_lt_sum _ _ _ hidx hdlt
  have hnlt : n < gYearLens.sum := by omega
  have hg := dayOfGreg_gregOfDay hnlt
  have hb := gregOfDay_month_bounds hnlt
  have hparse : parseOk (gregOfDay n).1 (gregOfDay n).2.1 (gregOfDay n).2.2 = true := by
    simp only [parseOk, decide_eq_true_eq]
    exact ⟨hb.1, hb.2.1, hb.2.2.1, hb.2.2.2⟩
  have hh2g : hijri_to_gregorian T y m d = gregOfDay n := by
    rw [hijri_to_gregorian, hn]
  have hsplit : splitIdx T.hlens (n - T.shift) = (hIdx y m, d - 1) := by
    have heq : n - T.shift = joinIdx T.hlens (hIdx y m) (d - 1) := by omega
    rw [heq]; exact splitIdx_joinIdx _ _ _ hidx hdlt
  have s1 : (splitIdx T.hlens (n - T.shift)).1 = hIdx y m := by rw [hsplit]
  have s2 : (splitIdx T.hlens (n - T.shift)).2 = d - 1 := by rw [hsplit]
  have hnotlo : ¬ (dayOfGreg (gregOfDay n).1 (gregOfDay n).2.1 (gregOfDay n).2.2 < T.shift) := by
    rw [hg]; omega
  have hnothi : ¬ (T.hlens.sum ≤
      dayOfGreg (gregOfDay n).1 (gregOfDay n).2.1 (gregOfDay n).2.2 - T.shift) := by
    rw [hg]; omega
  have hconv : gegorean_to_hijri T (gregOfDay n).1 (gregOfDay n).2.1 (gregOfDay n).2.2 =
      .ok (1356 + hIdx y m / 12, hIdx y m % 12 + 1, (d - 1) + 1,
           T.hlens.getD (hIdx y m) 0) := by
    rw [gegorean_to_hijri]
    simp only [hg, if_neg hnotlo, if_neg hnothi, s1, s2]
    rw [if_neg (show ¬ n < T.shift by omega),
        if_neg (show ¬ T.hlens.sum ≤ n - T.shift by omega)]
  rw [from_hijri, hvalid]
  simp only [hname, if_true, hh2g, hparse, hconv, canonicalHD, s1, s2, hg]
  have e1 : d - 1 + 1 = d := by omega
  have e2 : hIdx y m % 12 + 1 = m := by rw [hIdx]; omega
  have e3 : 1356 + hIdx y m / 12 = y := by rw [hIdx]; omega
  rw [e1, e2, e3]

theorem splitIdx_fst_of_sum_le : ∀ (L : List Nat) (n : Nat), L.sum ≤ n →
    (splitIdx L n).1 = L.length := by
  intro L
  induction L with
  | nil => intro n h; simp [splitIdx]
  | cons a L ih =>
      intro n h
      simp only [List.sum_cons] at h
      have hn : ¬ n < a := by omega
      have := ih (n - a) (by omega)
      simp [splitIdx, hn, this]

theorem canonicalHD_date_gr (T : UQTable) (n : Nat) : (canonicalHD T n).date_gr = n := rfl

/-- `chrno_to_hijri` rebuilds the canonical value of any day number whose
Gregorian year lies in the validated window. -/
theorem chrno_to_hijri_canonical (T : UQTable) (hT : T.Valid) {n : Nat}
    (hw1 : 1938 ≤ (gregOfDay n).1) (hw2 : (gregOfDay n).1 ≤ 2076) :
    chrno_to_hijri T n = .ok (canonicalHD T n) := by
  have hn : n < gYearLens.sum := by
    by_contra hc
    have hfst := splitIdx_fst_of_sum_le gYearLens n (by omega)
    rw [gYearLens_length] at hfst
    have : (gregOfDay n).1 = 1937 + 141 := by
      rw [gregOfDay]
      simp only [hfst]
    omega
  have hb := gregOfDay_month_bounds hn
  have hg := dayOfGreg_gregOfDay hn
  rw [chrno_to_hijri,
      from_gr_canonical T hT hw1 hw2 hb.1 hb.2.1 hb.2.2.1 hb.2.2.2, hg]

/-- `from_hijri` applied to the Hijri fields of a canonical value gives back
that canonical value. -/
theorem from_hijri_of_canonical (T : UQTable) (hT : T.Valid) {n : Nat}
    (h1 : T.shift ≤ n) (h2 : n - T.shift < T.hlens.sum) :
    from_hijri T (canonicalHD T n).year (canonicalHD T n).month (canonicalHD T n).day
      = .ok (canonicalHD T n) := by
  have hplt : (splitIdx T.hlens (n - T.shift)).1 < T.hlens.length :=
    splitIdx_fst_lt _ _ h2
  have hpd : (splitIdx T.hlens (n - T.shift)).2 <
      T.hlens.getD (splitIdx T.hlens (n - T.shift)).1 0 :=
    splitIdx_snd_lt _ _ h2
  have hlen1740 : (splitIdx T.hlens (n - T.shift)).1 < 1740 := by
    rw [hT.1] at hplt; exact hplt
  have hidx : hIdx (1356 + (splitIdx T.hlens (n - T.shift)).1 / 12)
      ((splitIdx T.hlens (n - T.shift)).1 % 12 + 1) = (splitIdx T.hlens (n - T.shift)).1 := by
    rw [hIdx]; omega
  have hyear : (canonicalHD T n).year = 1356 + (splitIdx T.hlens (n - T.shift)).1 / 12 := rfl
  have hmonth : (canonicalHD T n).month = (splitIdx T.hlens (n - T.shift)).1 % 12 + 1 := rfl
  have hday : (canonicalHD T n).day = (splitIdx T.hlens (n - T.shift)).2 + 1 := rfl
  rw [hyear, hmonth, hday,
      from_hijri_canonical T hT (by omega) (by omega) (by omega) (by omega) (by omega)
        (by rw [hidx]; omega)]
  have hj : T.shift + joinIdx T.hlens
      (hIdx (1356 + (splitIdx T.hlens (n - T.shift)).1 / 12)
        ((splitIdx T.hlens (n - T.shift)).1 % 12 + 1))
      ((splitIdx T.hlens (n - T.shift)).2 + 1 - 1) = n := by
    rw [hidx]
    have hjs := joinIdx_splitIdx T.hlens (n - T.shift) h2
    rw [joinIdx] at hjs ⊢
    omega
  rw [hj]

theorem tableC_valid : tableC.Valid := by
  refine ⟨by decide, ?_, by decide, by decide, by decide⟩
  intro x hx
  simp only [tableC, hlensC, List.mem_map, List.mem_range] at hx
  obtain ⟨i, hi, rfl⟩ := hx
  by_cases h1 : i = 1739
  · simp [h1]
  · by_cases h2 : i % 12 < 6 <;> simp [h1, h2]

/-! ### Claim theorems -/

/-- C10: the entry-point validators check only upper bounds, so zero values
pass validation: for every year in 1356..1500, `valid_hijri_date year 0 0`
returns normally, and for every year in 1938..2076, `valid_greorian_date
year 0 0` returns normally. -/
theorem c10_validators_accept_zero (y g : Nat) (hy1 : 1356 ≤ y) (hy2 : y ≤ 1500)
    (hg1 : 1938 ≤ g) (hg2 : g ≤ 2076) :
    valid_hijri_date y 0 0 = .ok () ∧ valid_greorian_date g 0 0 = .ok () :=
  ⟨valid_hijri_ok (by omega) (by omega) hy1 hy2,
   valid_greorian_ok (by omega) (by omega) hg1 hg2⟩

theorem c10_validators_accept_zero_witness :
    valid_hijri_date 1400 0 0 = .ok () ∧ valid_greorian_date 2000 0 0 = .ok () :=
  c10_validators_accept_zero 1400 2000 (by decide) (by decide) (by decide) (by decide)

/-- C3 counterexample: the Hijri validator checks no lower bounds and no
month-specific length.  Month 0 passes `valid_hijri_date`, and day 30 of
month 1400-07 — a month of 29 days in the spec-compliant table `tableC` — is
accepted by `from_hijri` with no error of any kind. -/
theorem c3_hijri_validation_counterexample :
    valid_hijri_date 1400 0 1 = .ok () ∧
    tableC.hlens.getD (hIdx 1400 7) 0 = 29 ∧
    from_hijri tableC 1400 7 30 = .ok ⟨30, 7, 29, 1400, 1, 6, 1980, 15857⟩ := by
  refine ⟨rfl, by decide, by decide⟩

/-- C3 amended: `valid_hijri_date` accepts exactly month ≤ 12, day ≤ 30 and
1356 ≤ year ≤ 1500 — upper bounds only, with no month-specific length check —
and the claim's four boundary examples do fail, for every table. -/
theorem c3_hijri_validation (T : UQTable) (y m d : Nat) :
    (valid_hijri_date y m d = .ok () ↔ m ≤ 12 ∧ d ≤ 30 ∧ 1356 ≤ y ∧ y ≤ 1500) ∧
    from_hijri T 1355 1 1 = .error "minumum handled hijri year is 1356" ∧
    from_hijri T 1501 1 1 = .error "maximum handled hijri year is 1500" ∧
    from_hijri T 1400 13 1 = .error "enter a valid month" ∧
    from_hijri T 1400 1 31 = .error "enter a valid day" := by
  refine ⟨⟨?_, ?_⟩, rfl, rfl, rfl, rfl⟩
  · intro h
    unfold valid_hijri_date at h
    split_ifs at h
    omega
  · intro h
    exact valid_hijri_ok h.1 h.2.1 h.2.2.1 h.2.2.2

/-- C4 counterexample: the Gregorian validator is not leap-aware and checks no
lower bounds: both February 29 of the non-leap year 2019 and month 0 pass
`valid_greorian_date` without any validation failure. -/
theorem c4_gregorian_validation_counterexample :
    valid_greorian_date 2019 2 29 = .ok () ∧ valid_greorian_date 2019 0 1 = .ok () :=
  ⟨rfl, rfl⟩

/-- C4 amended: `valid_greorian_date` accepts exactly month ≤ 12, day ≤ 31 and
1938 ≤ year ≤ 2076; the year boundary examples fail there, while a
February-length violation such as (2019,2,29) passes the validator and is
rejected only by the later generic date-parse failure (still before any table
access), and (2020,2,29) succeeds. -/
theorem c4_gregorian_validation (T : UQTable) (hT : T.Valid) (y m d : Nat) :
    (valid_greorian_date y m d = .ok () ↔ m ≤ 12 ∧ d ≤ 31 ∧ 1938 ≤ y ∧ y ≤ 2076) ∧
    from_gr T 1937 12 31 = .error "minumum handled gregorian year is 1938" ∧
    from_gr T 2077 1 1 = .error "maximum handled gregorian year is 2076" ∧
    from_gr T 2019 2 29 = .error "Wrong gegorean date foramt" ∧
    (∃ a, from_gr T 2020 2 29 = .ok a) := by
  refine ⟨⟨?_, ?_⟩, rfl, rfl, rfl, ?_⟩
  · intro h
    unfold valid_greorian_date at h
    split_ifs at h
    omega
  · intro h
    exact valid_greorian_ok h.1 h.2.1 h.2.2.1 h.2.2.2
  · exact ⟨canonicalHD T (dayOfGreg 2020 2 29),
      from_gr_canonical T hT (by omega) (by omega) (by omega) (by omega) (by omega)
        (by decide)⟩

theorem c4_gregorian_validation_witness :
    valid_greorian_date 2000 6 15 = .ok () ∧ (∃ a, from_gr tableC 2020 2 29 = .ok a) := by
  have h := c4_gregorian_validation tableC tableC_valid 2000 6 15
  exact ⟨(h.1).mpr (by decide), h.2.2.2.2⟩

/-- C6: the formatter of src/lib.rs replaces every bare letter `l`, so the
documented month-length token `%l` yields `%29` instead of `29` and literal
pattern text containing `l` is corrupted, while the ten `%`-prefixed tokens do
substitute correctly. -/
theorem c6_format_bare_l :
    HijriDate.format ⟨30, 7, 29, 1400, 1, 6, 1980, 15857⟩ "A" "B" "Tuesday" "June" "%l"
      = "%29" ∧
    HijriDate.format ⟨30, 7, 29, 1400, 1, 6, 1980, 15857⟩ "A" "B" "Tuesday" "June" "hello"
      = "he2929o" ∧
    HijriDate.format ⟨30, 7, 29, 1400, 1, 6, 1980, 15857⟩ "A" "B" "Tuesday" "June"
      "%Y %m %d %D %M %gY %gm %gd %gD %gM"
      = "1400 7 30 A B 1980 6 1 Tuesday June" := by
  refine ⟨rfl, rfl, rfl⟩

/-- C8: subtracting one date from another gives the signed difference of the
canonical day numbers, positive exactly when the first date is later; in
particular 1356-06-15 minus 1356-06-07 is 8 days over every spec-compliant
table. -/
theorem c8_date_difference (T : UQTable) (hT : T.Valid) :
    (∀ a b : HijriDate, hdDiff a b = (a.date_gr : Int) - (b.date_gr : Int) ∧
      (0 < hdDiff a b ↔ b.date_gr < a.date_gr)) ∧
    (∃ a b, from_hijri T 1356 6 15 = .ok a ∧ from_hijri T 1356 6 7 = .ok b ∧
      hdDiff a b = 8) := by
  constructor
  · intro a b
    refine ⟨rfl, ?_⟩
    rw [hdDiff]
    omega
  · have hidx : hIdx 1356 6 < T.hlens.length := by rw [hT.1]; decide
    have hmem : T.hlens.getD (hIdx 1356 6) 0 = 29 ∨ T.hlens.getD (hIdx 1356 6) 0 = 30 :=
      hT.2.1 _ (mem_getD hidx)
    have h15 := from_hijri_canonical T hT (y := 1356) (m := 6) (d := 15)
      (by omega) (by omega) (by omega) (by omega) (by omega) (by omega)
    have h7 := from_hijri_canonical T hT (y := 1356) (m := 6) (d := 7)
      (by omega) (by omega) (by omega) (by omega) (by omega) (by omega)
    refine ⟨_, _, h15, h7, ?_⟩
    rw [hdDiff, canonicalHD_date_gr, canonicalHD_date_gr, joinIdx, joinIdx]
    omega

theorem c8_date_difference_witness :
    hdDiff ⟨15, 6, 30, 1356, 25, 8, 1937, 236⟩ ⟨7, 6, 30, 1356, 17, 8, 1937, 228⟩
      = ((236 : Nat) : Int) - ((228 : Nat) : Int) :=
  ((c8_date_difference tableC tableC_valid).1
    ⟨15, 6, 30, 1356, 25, 8, 1937, 236⟩ ⟨7, 6, 30, 1356, 17, 8, 1937, 228⟩).1

/-- C9: if A's canonical day is strictly before B's, A compares less-than and
B - A is a strictly positive number of days; and 1500-12-30 compares greater
than 1356-01-01 whenever the table's last month has 30 days. -/
theorem c9_ordering_monotone (T : UQTable) (hT : T.Valid) :
    (∀ a b : HijriDate, a.date_gr < b.date_gr → hdCmp a b = .lt ∧ 0 < hdDiff b a) ∧
    (T.hlens.getD 1739 0 = 30 →
      ∃ a b, from_hijri T 1500 12 30 = .ok a ∧ from_hijri T 1356 1 1 = .ok b ∧
        hdCmp a b = .gt ∧ 0 < hdDiff a b) := by
  constructor
  · intro a b h
    constructor
    · rw [hdCmp]
      exact Nat.compare_eq_lt.mpr h
    · rw [hdDiff]
      omega
  · intro h30
    have e1739 : hIdx 1500 12 = 1739 := by decide
    have hidx0 : hIdx 1356 1 < T.hlens.length := by rw [hT.1]; decide
    have hmem0 : T.hlens.getD (hIdx 1356 1) 0 = 29 ∨ T.hlens.getD (hIdx 1356 1) 0 = 30 :=
      hT.2.1 _ (mem_getD hidx0)
    have ha := from_hijri_canonical T hT (y := 1500) (m := 12) (d := 30)
      (by omega) (by omega) (by omega) (by omega) (by omega) (by rw [e1739]; omega)
    have hb := from_hijri_canonical T hT (y := 1356) (m := 1) (d := 1)
      (by omega) (by omega) (by omega) (by omega) (by omega) (by omega)
    refine ⟨_, _, ha, hb, ?_, ?_⟩
    · rw [hdCmp, canonicalHD_date_gr, canonicalHD_date_gr]
      refine Nat.compare_eq_gt.mpr ?_
      rw [joinIdx, joinIdx]
      have : hIdx 1356 1 = 0 := by decide
      rw [this, sumTake_zero]
      have h29 : 1 ≤ T.hlens.getD (hIdx 1500 12) 0 := by rw [e1739]; omega
      omega
    · rw [hdDiff, canonicalHD_date_gr, canonicalHD_date_gr, joinIdx, joinIdx]
      have : hIdx 1356 1 = 0 := by decide
      rw [this, sumTake_zero]
      omega

theorem c9_ordering_monotone_witness :
    hdCmp ⟨7, 6, 30, 1356, 17, 8, 1937, 228⟩ ⟨15, 6, 30, 1356, 25, 8, 1937, 236⟩
        = Ordering.lt ∧
    0 < hdDiff ⟨15, 6, 30, 1356, 25, 8, 1937, 236⟩ ⟨7, 6, 30, 1356, 17, 8, 1937, 228⟩ :=
  (c9_ordering_monotone tableC tableC_valid).1
    ⟨7, 6, 30, 1356, 17, 8, 1937, 228⟩ ⟨15, 6, 30, 1356, 25, 8, 1937, 236⟩ (by decide)

/-- C5 counterexample: the derived equality of src/lib.rs compares every
field, not only the canonical day.  Day 30 of month 1357-08 — a 29-day month
of the spec-compliant table `tableC` — passes validation and lands on
1938-10-27; building the same canonical day through `from_gr` stores the
derived Hijri fields (1357-09-01), so the two values share `date_gr` yet
compare unequal. -/
theorem c5_equality_counterexample :
    from_hijri tableC 1357 8 30 = .ok ⟨30, 8, 29, 1357, 27, 10, 1938, 664⟩ ∧
    from_gr tableC 1938 10 27 = .ok ⟨1, 9, 29, 1357, 27, 10, 1938, 664⟩ ∧
    (⟨30, 8, 29, 1357, 27, 10, 1938, 664⟩ : HijriDate).date_gr
      = (⟨1, 9, 29, 1357, 27, 10, 1938, 664⟩ : HijriDate).date_gr ∧
    (⟨30, 8, 29, 1357, 27, 10, 1938, 664⟩ : HijriDate) ≠
      (⟨1, 9, 29, 1357, 27, 10, 1938, 664⟩ : HijriDate) := by
  refine ⟨by decide, by decide, rfl, by decide⟩

/-- C5 amended: for values built from properly valid inputs the field-wise
derived equality coincides with canonical-day equality: a `from_hijri` value
whose day is within the actual month length and a `from_gr` value of the
validated window are equal exactly when they denote the same canonical day. -/
theorem c5_equality_canonical (T : UQTable) (hT : T.Valid) (y m d gy gm gd : Nat)
    (a b : HijriDate)
    (hy1 : 1356 ≤ y) (hy2 : y ≤ 1500) (hm1 : 1 ≤ m) (hm2 : m ≤ 12)
    (hd1 : 1 ≤ d) (hd2 : d ≤ T.hlens.getD (hIdx y m) 0)
    (hgy1 : 1938 ≤ gy) (hgy2 : gy ≤ 2076) (hgm1 : 1 ≤ gm) (hgm2 : gm ≤ 12)
    (hgd1 : 1 ≤ gd) (hgd2 : gd ≤ gMonthLen gy gm)
    (ha : from_hijri T y m d = .ok a) (hb : from_gr T gy gm gd = .ok b) :
    a = b ↔ a.date_gr = b.date_gr := by
  rw [from_hijri_canonical T hT hy1 hy2 hm1 hm2 hd1 hd2] at ha
  rw [from_gr_canonical T hT hgy1 hgy2 hgm1 hgm2 hgd1 hgd2] at hb
  injection ha with ha'
  injection hb with hb'
  subst ha' hb'
  constructor
  · intro h
    rw [h]
  · intro h
    have heq : T.shift + joinIdx T.hlens (hIdx y m) (d - 1) = dayOfGreg gy gm gd := h
    rw [heq]

theorem c5_equality_canonical_witness :
    ((⟨5, 2, 30, 1357, 6, 4, 1938, 460⟩ : HijriDate) = ⟨5, 2, 30, 1357, 6, 4, 1938, 460⟩ ↔
      (⟨5, 2, 30, 1357, 6, 4, 1938, 460⟩ : HijriDate).date_gr
        = (⟨5, 2, 30, 1357, 6, 4, 1938, 460⟩ : HijriDate).date_gr) :=
  c5_equality_canonical tableC tableC_valid 1357 2 5 1938 4 6 _ _
    (by decide) (by decide) (by decide) (by decide) (by decide) (by decide)
    (by decide) (by decide) (by decide) (by decide) (by decide) (by decide)
    (by decide) (by decide)

/-- C1 counterexample: the round-trip fails at the window edge.  Over the
spec-compliant table `tableC`, `from_hijri 1356 1 1` succeeds with Gregorian
image 1937-03-14, and feeding that image back to `from_gr` raises the
minimum-year validation failure instead of returning an equal value. -/
theorem c1_round_trip_counterexample :
    tableC.Valid ∧
    from_hijri tableC 1356 1 1 = .ok ⟨1, 1, 30, 1356, 14, 3, 1937, 72⟩ ∧
    from_gr tableC 1937 3 14 = .error "minumum handled gregorian year is 1938" :=
  ⟨tableC_valid, by decide, rfl⟩

/-- C1 amended: the round-trip holds in both directions for dates clear of
the window edge: a properly valid Hijri date whose Gregorian image year lies
in [1938, 2076] maps through `from_hijri` then `from_gr` to the same value,
and every valid Gregorian date of [1938, 2076] maps through `from_gr` then
`from_hijri` to the same value. -/
theorem c1_round_trip (T : UQTable) (hT : T.Valid) :
    (∀ y m d, 1356 ≤ y → y ≤ 1500 → 1 ≤ m → m ≤ 12 → 1 ≤ d →
      d ≤ T.hlens.getD (hIdx y m) 0 →
      1938 ≤ (hijri_to_gregorian T y m d).1 → (hijri_to_gregorian T y m d).1 ≤ 2076 →
      ∃ a, from_hijri T y m d = .ok a ∧
        from_gr T a.year_gr a.month_gr a.day_gr = .ok a) ∧
    (∀ gy gm gd, 1938 ≤ gy → gy ≤ 2076 → 1 ≤ gm → gm ≤ 12 → 1 ≤ gd →
      gd ≤ gMonthLen gy gm →
      ∃ a, from_gr T gy gm gd = .ok a ∧
        from_hijri T a.year a.month a.day = .ok a) := by
  constructor
  · intro y m d hy1 hy2 hm1 hm2 hd1 hd2 hw1 hw2
    set n := T.shift + joinIdx T.hlens (hIdx y m) (d - 1) with hn
    have hfh := from_hijri_canonical T hT hy1 hy2 hm1 hm2 hd1 hd2
    refine ⟨canonicalHD T n, hfh, ?_⟩
    have hyg : (canonicalHD T n).year_gr = (gregOfDay n).1 := rfl
    have hmg : (canonicalHD T n).month_gr = (gregOfDay n).2.1 := rfl
    have hdg : (canonicalHD T n).day_gr = (gregOfDay n).2.2 := rfl
    have hw1' : 1938 ≤ (gregOfDay n).1 := hw1
    have hw2' : (gregOfDay n).1 ≤ 2076 := hw2
    have hidx : hIdx y m < T.hlens.length := by
      rw [hT.1]; exact hIdx_lt hy1 hy2 hm1 hm2
    have hjlt : joinIdx T.hlens (hIdx y m) (d - 1) < T.hlens.sum :=
      joinIdx_lt_sum _ _ _ hidx (by omega)
    have hnlt : n < gYearLens.sum := by
      have := hT.2.2.1; omega
    have hbnd := gregOfDay_month_bounds hnlt
    have hg := dayOfGreg_gregOfDay hnlt
    rw [hyg, hmg, hdg,
        from_gr_canonical T hT hw1' hw2' hbnd.1 hbnd.2.1 hbnd.2.2.1 hbnd.2.2.2, hg]
  · intro gy gm gd hgy1 hgy2 hgm1 hgm2 hgd1 hgd2
    have hfg := from_gr_canonical T hT hgy1 hgy2 hgm1 hgm2 hgd1 hgd2
    refine ⟨canonicalHD T (dayOfGreg gy gm gd), hfg, ?_⟩
    have hge : 365 ≤ dayOfGreg gy gm gd := dayOfGreg_ge_365 hgy1
    have hcap : dayOfGreg gy gm gd ≤ 51134 :=
      dayOfGreg_le_cap (by omega) hgy2 hgm1 hgm2 hgd1 hgd2
    have hlo := hT.2.2.2.1
    have hhi := hT.2.2.2.2
    rw [dayOfGreg_1938] at hlo
    rw [dayOfGreg_2076] at hhi
    exact from_hijri_of_canonical T hT (by omega) (by omega)

theorem c1_round_trip_witness :
    (∃ a, from_hijri tableC 1357 2 5 = .ok a ∧
      from_gr tableC a.year_gr a.month_gr a.day_gr = .ok a) ∧
    (∃ a, from_gr tableC 2000 7 31 = .ok a ∧
      from_hijri tableC a.year a.month a.day = .ok a) := by
  have h := c1_round_trip tableC tableC_valid
  exact ⟨h.1 1357 2 5 (by decide) (by decide) (by decide) (by decide) (by decide)
      (by decide) (by decide) (by decide),
    h.2 2000 7 31 (by decide) (by decide) (by decide) (by decide) (by decide) (by decide)⟩

/-- C7: adding then subtracting the same number of days is the identity
whenever the shifted day and the date's own Gregorian image stay inside the
validated window; and 1420-06-15 minus 16 days equals 1420-05-29 whenever
month 1420-05 of the table has 30 days (as the published data has). -/
theorem c7_arithmetic_inverse (T : UQTable) (hT : T.Valid) :
    (∀ y m d : Nat, ∀ n : Int, 1356 ≤ y → y ≤ 1500 → 1 ≤ m → m ≤ 12 → 1 ≤ d →
      d ≤ T.hlens.getD (hIdx y m) 0 →
      1938 ≤ (hijri_to_gregorian T y m d).1 → (hijri_to_gregorian T y m d).1 ≤ 2076 →
      0 ≤ ((T.shift + joinIdx T.hlens (hIdx y m) (d - 1) : Nat) : Int) + n →
      1938 ≤ (gregOfDay (((T.shift + joinIdx T.hlens (hIdx y m) (d - 1) : Nat) : Int) + n).toNat).1 →
      (gregOfDay (((T.shift + joinIdx T.hlens (hIdx y m) (d - 1) : Nat) : Int) + n).toNat).1 ≤ 2076 →
      Except.bind (Except.bind (from_hijri T y m d) (fun a => hdAdd T a n))
        (fun a => hdSub T a n) = from_hijri T y m d) ∧
    (T.hlens.getD (hIdx 1420 5) 0 = 30 →
      1938 ≤ (hijri_to_gregorian T 1420 5 29).1 → (hijri_to_gregorian T 1420 5 29).1 ≤ 2076 →
      Except.bind (from_hijri T 1420 6 15) (fun a => hdSub T a 16)
        = from_hijri T 1420 5 29) := by
  constructor
  · intro y m d n hy1 hy2 hm1 hm2 hd1 hd2 hw1 hw2 h0 hz1 hz2
    set n0 := T.shift + joinIdx T.hlens (hIdx y m) (d - 1) with hn0
    have hfh := from_hijri_canonical T hT hy1 hy2 hm1 hm2 hd1 hd2
    rw [hfh]
    have hstep1 : Except.bind (Except.ok (canonicalHD T n0)) (fun a => hdAdd T a n)
        = hdAdd T (canonicalHD T n0) n := rfl
    rw [hstep1, hdAdd, canonicalHD_date_gr, if_neg (by omega)]
    have hz := chrno_to_hijri_canonical T hT
      (n := (((n0 : Nat) : Int) + n).toNat) hz1 hz2
    rw [hz]
    have hstep2 : Except.bind (Except.ok (canonicalHD T ((((n0 : Nat) : Int) + n).toNat)))
        (fun a => hdSub T a n) = hdSub T (canonicalHD T ((((n0 : Nat) : Int) + n).toNat)) n := rfl
    rw [hstep2, hdSub, hdAdd, canonicalHD_date_gr, if_neg (by omega)]
    have hback : ((((((n0 : Nat) : Int) + n).toNat : Nat) : Int) + -n).toNat = n0 := by omega
    rw [hback]
    have hw1' : 1938 ≤ (gregOfDay n0).1 := hw1
    have hw2' : (gregOfDay n0).1 ≤ 2076 := hw2
    rw [chrno_to_hijri_canonical T hT hw1' hw2']
  · intro h772 hw1 hw2
    have hidx6 : hIdx 1420 6 < T.hlens.length := by rw [hT.1]; decide
    have hmem6 : T.hlens.getD (hIdx 1420 6) 0 = 29 ∨ T.hlens.getD (hIdx 1420 6) 0 = 30 :=
      hT.2.1 _ (mem_getD hidx6)
    have hf15 := from_hijri_canonical T hT (y := 1420) (m := 6) (d := 15)
      (by omega) (by omega) (by omega) (by omega) (by omega) (by omega)
    have hf29 := from_hijri_canonical T hT (y := 1420) (m := 5) (d := 29)
      (by omega) (by omega) (by omega) (by omega) (by omega) (by omega)
    rw [hf15, hf29]
    set n1 := T.shift + joinIdx T.hlens (hIdx 1420 6) (15 - 1) with hn1
    have hstep : Except.bind (Except.ok (canonicalHD T n1)) (fun a => hdSub T a 16)
        = hdSub T (canonicalHD T n1) 16 := rfl
    have hsucc := sumTake_succ T.hlens (hIdx 1420 5) (by rw [hT.1]; decide)
    rw [h772] at hsucc
    have e65 : hIdx 1420 6 = hIdx 1420 5 + 1 := by decide
    have hs13 : sumTake T.hlens (hIdx 1420 6) = sumTake T.hlens (hIdx 1420 5) + 30 := by
      rw [e65]; exact hsucc
    have hj1 : joinIdx T.hlens (hIdx 1420 6) (15 - 1)
        = sumTake T.hlens (hIdx 1420 5) + 44 := by
      rw [joinIdx, hs13]
    have hstep2 : hdSub T (canonicalHD T n1) 16 = hdAdd T (canonicalHD T n1) (-16) := rfl
    rw [hstep, hstep2, hdAdd, canonicalHD_date_gr, if_neg (by omega)]
    have hback : (((n1 : Nat) : Int) + -(16 : Int)).toNat
        = T.shift + joinIdx T.hlens (hIdx 1420 5) (29 - 1) := by
      have hj2 : joinIdx T.hlens (hIdx 1420 5) (29 - 1)
          = sumTake T.hlens (hIdx 1420 5) + 28 := by
        rw [joinIdx]
      omega
    rw [hback]
    have hw1' : 1938 ≤ (gregOfDay (T.shift + joinIdx T.hlens (hIdx 1420 5) (29 - 1))).1 := hw1
    have hw2' : (gregOfDay (T.shift + joinIdx T.hlens (hIdx 1420 5) (29 - 1))).1 ≤ 2076 := hw2
    rw [chrno_to_hijri_canonical T hT hw1' hw2']

theorem c7_arithmetic_inverse_witness :
    Except.bind (Except.bind (from_hijri tableC 1357 2 5) (fun a => hdAdd tableC a 10))
      (fun a => hdSub tableC a 10) = from_hijri tableC 1357 2 5 ∧
    Except.bind (from_hijri tableC 1420 6 15) (fun a => hdSub tableC a 16)
      = from_hijri tableC 1420 5 29 := by
  have h := c7_arithmetic_inverse tableC tableC_valid
  exact ⟨h.1 1357 2 5 10 (by decide) (by decide) (by decide) (by decide) (by decide)
      (by decide) (by decide) (by decide) (by decide) (by decide) (by decide),
    h.2 (by decide) (by decide) (by decide)⟩
